import Mathlib

/-!
Shallow embedding of `src/jam.rs` (mirror filtering and ranking pipeline).

Modelling decisions:
* Rust `f32` values are modelled by `F32`: either `nan` or an exact rational
  value.  The program only compares floats and adds two of them, so exact
  rational arithmetic is adequate; `nan` captures IEEE semantics where every
  comparison with NaN is false and `partial_cmp` returns `None`.
* Rust `Option<T>` is Lean `Option`.  The derived Rust ordering on
  `Option<u32>` (used by `m.delay <= Some(threshold)`) places `None` below
  every `Some`, which `optionNatLe` reproduces.
* A Rust panic is modelled by `Option.none` at the result type: the first
  filter closure can panic on `m.duration_avg.unwrap()`, and the
  `sort_by` comparator can panic when a score is `None` or NaN.  `sort_by`
  makes no comparator call on lists of length at most one; on longer lists
  every element takes part in at least one comparison, so a single bad score
  in a surviving list of length at least two faults the sort.
* Rust `Vec::sort_by` is a stable sort; on a list whose scores are all
  comparable the comparator is the pulled-back total order on rationals, and
  every stable sort then produces the same output, which we model with
  `List.insertionSort` (stable).
-/

/-- An `f32` value: NaN or an exact value. -/
inductive F32 where
  | nan : F32
  | val : ℚ → F32
deriving DecidableEq

/-- IEEE addition restricted to what the program needs: NaN propagates. -/
def F32.add : F32 → F32 → F32
  | F32.val a, F32.val b => F32.val (a + b)
  | _, _ => F32.nan

/-- IEEE `<=`: any comparison involving NaN is false. -/
def F32.le : F32 → F32 → Bool
  | F32.val a, F32.val b => decide (a ≤ b)
  | _, _ => false

/-- IEEE `==`: any comparison involving NaN is false (also NaN == NaN). -/
def F32.beq : F32 → F32 → Bool
  | F32.val a, F32.val b => decide (a = b)
  | _, _ => false

/-- Rust `Option<f32>` equality (`PartialEq` on `Option`): both absent is
equal, presence mismatch is unequal, both present compares the floats. -/
def optionF32Beq : Option F32 → Option F32 → Bool
  | some a, some b => F32.beq a b
  | none, none => true
  | _, _ => false

/-- Rust derived `PartialOrd`/`Ord` `<=` on `Option<u32>`: `None` is below
every `Some`. -/
def optionNatLe : Option Nat → Option Nat → Bool
  | none, _ => true
  | some _, none => false
  | some a, some b => decide (a ≤ b)

/-- The `Args` struct of `src/jam.rs` (command-line flags). -/
structure Args where
  output : Option String
  require_ipv6 : Bool
  require_ipv4 : Bool
  protocol : List String
  country : Option String
  delay : Option Nat
  maximum_mirrors : Option Nat
deriving DecidableEq

/-- The `Url` struct of `src/jam.rs` (one mirror record). -/
structure Url where
  url : String
  country_code : String
  protocol : String
  completion_pct : Option F32
  delay : Option Nat
  ipv4 : Bool
  ipv6 : Bool
  duration_avg : Option F32
  duration_stddev : Option F32
  score : Option F32
deriving DecidableEq

/-- The `ApiResponse` struct of `src/jam.rs`. -/
structure ApiResponse where
  urls : List Url
deriving DecidableEq

/-- Function maybe_absent_compare from `src/jam.rs`: an absent reference
value is no constraint, a present one must be equal. -/
def maybe_absent_compare {T : Type} [DecidableEq T] (argument : Option T) (given : T) : Bool :=
  match argument with
  | some unwrapped => decide (unwrapped = given)
  | none => true

/-- Function maybe_absent_list from `src/jam.rs`: an empty list is no
constraint, a non-empty one must contain the value. -/
def maybe_absent_list {T : Type} [DecidableEq T] (argument : List T) (given : T) : Bool :=
  if argument.length = 0 then true
  else argument.contains given

/-- Function ip_filter from `src/jam.rs`: first component of `args` requires
the first component of `given`, second requires second. -/
def ip_filter (args : Bool × Bool) (given : Bool × Bool) : Bool :=
  if args.1 && !given.1 then false
  else if args.2 && !given.2 then false
  else true

/-- The delay conjunct of the first filter closure:
`m.delay <= Some(args.delay.unwrap_or(3600))` under Rust Option ordering. -/
def delayOk (args : Args) (m : Url) : Bool :=
  optionNatLe m.delay (some (args.delay.getD 3600))

/-- The first filter closure of `process_mirrors` (lines 87-99 of
`src/jam.rs`).  `none` models the panic of `m.duration_avg.unwrap()`: the
closure checks `duration_stddev` for absence twice (a typo in the source) and
never `duration_avg`, then force-unwraps `duration_avg` after the other
conjuncts pass.  The `&&` chain short-circuits, so the unwrap is reached only
when the four preceding conjuncts hold. -/
def mirror_quality_filter (args : Args) (m : Url) : Option Bool :=
  if m.duration_stddev.isNone || m.duration_stddev.isNone || m.score.isNone then
    some false
  else if maybe_absent_compare args.country m.country_code
      && maybe_absent_list args.protocol m.protocol
      && optionF32Beq m.completion_pct (some (F32.val 1))
      && delayOk args m then
    match m.duration_avg, m.duration_stddev with
    | some a, some s => some (F32.le (F32.add a s) (F32.val 1))
    | _, _ => none
  else
    some false

/-- One candidate through both filter closures: the quality closure (which
may panic) and then the `ip_filter` closure. -/
def keepMirror (args : Args) (m : Url) : Option Bool :=
  match mirror_quality_filter args m with
  | none => none
  | some b => some (b && ip_filter (args.require_ipv4, args.require_ipv6) (m.ipv4, m.ipv6))

/-- Panic-propagating list filter: `none` as soon as the predicate faults on
any element, otherwise the sublist of elements on which it returns true. -/
def filterPanic (f : Url → Option Bool) : List Url → Option (List Url)
  | [] => some []
  | m :: rest =>
    match f m with
    | none => none
    | some b =>
      match filterPanic f rest with
      | none => none
      | some tail => some (if b then m :: tail else tail)

/-- The filter stage of `process_mirrors`: both `.filter(..)` calls. -/
def filterMirrors (args : Args) (l : List Url) : Option (List Url) :=
  filterPanic (keepMirror args) l

/-- A score the sort comparator can handle: present and not NaN. -/
def scoreComparable (m : Url) : Bool :=
  match m.score with
  | some (F32.val _) => true
  | _ => false

/-- The rational value of a comparable score (junk value 0 otherwise; only
used on lists whose scores are all comparable). -/
def scoreKey (m : Url) : ℚ :=
  match m.score with
  | some (F32.val q) => q
  | _ => 0

/-- The total order the comparator computes on comparable scores. -/
def rankRel (a b : Url) : Prop :=
  scoreKey a ≤ scoreKey b

instance : DecidableRel rankRel := fun a b =>
  inferInstanceAs (Decidable (scoreKey a ≤ scoreKey b))

instance : IsTotal Url rankRel :=
  ⟨fun a b => le_total (scoreKey a) (scoreKey b)⟩

instance : IsTrans Url rankRel :=
  ⟨fun _ _ _ h1 h2 => le_trans h1 h2⟩

/-- The `sort_by` line of `process_mirrors` (line 102 of `src/jam.rs`).
On a list of length at most one the comparator is never called; otherwise a
score that is absent or NaN makes `unwrap()` panic (`none`), and with all
scores comparable the stable sort is modelled by `insertionSort`. -/
def sortMirrors (mirrors : List Url) : Option (List Url) :=
  if mirrors.length ≤ 1 then some mirrors
  else if mirrors.all scoreComparable then some (List.insertionSort rankRel mirrors)
  else none

/-- Function process_mirrors from `src/jam.rs`: filter both closures, then
sort by score.  `none` models a panic anywhere in the pipeline. -/
def process_mirrors (res : ApiResponse) (args : Args) : Option (List Url) :=
  match filterMirrors args res.urls with
  | none => none
  | some mirrors => sortMirrors mirrors

/-- The comparison the spec's ranking property talks about: both scores
present, not NaN, and in ascending order. -/
def scoreLeB (a b : Url) : Bool :=
  match a.score, b.score with
  | some (F32.val x), some (F32.val y) => decide (x ≤ y)
  | _, _ => false

/-- Equal-score predicate used to state sort stability. -/
def sameScore (q : ℚ) (m : Url) : Bool :=
  decide (scoreKey m = q)

/-- One single-constraint relaxation of the criteria: empty the protocol
list, drop the country filter, clear one of the IP requirement flags, or
raise the effective delay threshold. -/
def RelaxStep (a a' : Args) : Prop :=
  a' = { a with protocol := [] } ∨
  a' = { a with country := none } ∨
  a' = { a with require_ipv4 := false } ∨
  a' = { a with require_ipv6 := false } ∨
  ∃ d', a.delay.getD 3600 ≤ d' ∧ a' = { a with delay := some d' }

/-- Default command-line arguments (`require_ipv4` defaults to true, the
rest to absent/false/empty). -/
def defaultArgs : Args :=
  { output := none
    require_ipv6 := false
    require_ipv4 := true
    protocol := []
    country := none
    delay := none
    maximum_mirrors := none }

/-- A fully valid candidate: every predicate of the filter passes. -/
def goodUrl : Url :=
  { url := "https://test.com/"
    country_code := "US"
    protocol := "https"
    completion_pct := some (F32.val 1)
    delay := some 600
    ipv4 := true
    ipv6 := false
    duration_avg := some (F32.val 0)
    duration_stddev := some (F32.val 1)
    score := some (F32.val 2) }

/-- A valid candidate with a lower score than `goodUrl`. -/
def fastUrl : Url :=
  { goodUrl with url := "https://fast.com/", score := some (F32.val 1) }

/-- A valid candidate with the same score as `goodUrl` but another address. -/
def goodUrlB : Url :=
  { goodUrl with url := "https://b.com/" }

/-- A candidate with `delay` absent and every other predicate passing. -/
def urlDelayAbsent : Url :=
  { goodUrl with url := "https://nodelay.com/", delay := none }

/-- A candidate with `duration_avg` absent, `duration_stddev` present and
every other conjunct before the force-unwrap passing. -/
def urlAvgAbsent : Url :=
  { goodUrl with url := "https://noavg.com/", duration_avg := none }

/-- A candidate whose score is present but NaN, all other fields valid. -/
def urlNanScore : Url :=
  { goodUrl with url := "https://nan.com/", score := some F32.nan }

/-- A Canadian candidate with `duration_avg` absent: under a United-States
country filter it is rejected before the force-unwrap, without one the
force-unwrap faults. -/
def urlCAAvgAbsent : Url :=
  { goodUrl with url := "https://ca.com/", country_code := "CA", duration_avg := none }

/-- Arguments restricting to country US. -/
def argsCountryUS : Args :=
  { defaultArgs with country := some "US" }

/-! ### Helper lemmas about the panic-propagating filter -/

theorem filterPanic_mem_keep {f : Url → Option Bool} :
    ∀ {l S : List Url}, filterPanic f l = some S → ∀ m ∈ S, f m = some true
  | [], S, h => by
    simp only [filterPanic, Option.some.injEq] at h
    subst h; intro m hm; cases hm
  | x :: rest, S, h => by
    intro m hm
    rw [filterPanic] at h
    cases hf : f x with
    | none => rw [hf] at h; cases h
    | some b =>
      rw [hf] at h
      cases hrest : filterPanic f rest with
      | none => rw [hrest] at h; cases h
      | some tail =>
        rw [hrest] at h
        simp only [Option.some.injEq] at h
        subst h
        cases b with
        | true =>
          simp only [if_true] at hm
          rcases List.mem_cons.mp hm with h1 | h2
          · subst h1; exact hf
          · exact filterPanic_mem_keep hrest m h2
        | false =>
          simp only [Bool.false_eq_true, if_false] at hm
          exact filterPanic_mem_keep hrest m hm

theorem filterPanic_sublist {f : Url → Option Bool} :
    ∀ {l S : List Url}, filterPanic f l = some S → S.Sublist l
  | [], S, h => by
    simp only [filterPanic, Option.some.injEq] at h
    subst h; exact List.Sublist.refl []
  | x :: rest, S, h => by
    rw [filterPanic] at h
    cases hf : f x with
    | none => rw [hf] at h; cases h
    | some b =>
      rw [hf] at h
      cases hrest : filterPanic f rest with
      | none => rw [hrest] at h; cases h
      | some tail =>
        rw [hrest] at h
        simp only [Option.some.injEq] at h
        subst h
        cases b with
        | true => exact (filterPanic_sublist hrest).cons₂ x
        | false => exact (filterPanic_sublist hrest).cons x

theorem filterPanic_self {f : Url → Option Bool} :
    ∀ {l : List Url}, (∀ m ∈ l, f m = some true) → filterPanic f l = some l
  | [], _ => rfl
  | x :: rest, h => by
    rw [filterPanic]
    rw [h x (List.mem_cons_self x rest)]
    rw [filterPanic_self fun m hm => h m (List.mem_cons_of_mem x hm)]
    simp

theorem filterPanic_mem_of_keep {f : Url → Option Bool} :
    ∀ {l S : List Url} {m : Url}, filterPanic f l = some S → m ∈ l → f m = some true → m ∈ S
  | [], _, m, _, hm, _ => by cases hm
  | x :: rest, S, m, h, hm, hf => by
    rw [filterPanic] at h
    cases hfx : f x with
    | none => rw [hfx] at h; cases h
    | some b =>
      rw [hfx] at h
      cases hrest : filterPanic f rest with
      | none => rw [hrest] at h; cases h
      | some tail =>
        rw [hrest] at h
        simp only [Option.some.injEq] at h
        subst h
        rcases List.mem_cons.mp hm with h1 | h2
        · subst h1
          rw [hfx] at hf
          simp only [Option.some.injEq] at hf
          subst hf
          simp
        · have := filterPanic_mem_of_keep hrest h2 hf
          cases b <;> simp [this]

/-! ### Characterization of survival through both filter closures -/

theorem mirror_quality_filter_eq_some_true (args : Args) (m : Url) :
    mirror_quality_filter args m = some true ↔
      maybe_absent_compare args.country m.country_code = true ∧
      maybe_absent_list args.protocol m.protocol = true ∧
      optionF32Beq m.completion_pct (some (F32.val 1)) = true ∧
      delayOk args m = true ∧
      (∃ sc, m.score = some sc) ∧
      ∃ a s, m.duration_avg = some a ∧ m.duration_stddev = some s ∧
        F32.le (F32.add a s) (F32.val 1) = true := by
  cases hs : m.duration_stddev with
  | none => simp [mirror_quality_filter, hs]
  | some s =>
    cases hq : m.score with
    | none => simp [mirror_quality_filter, hs, hq]
    | some q =>
      cases hA : maybe_absent_compare args.country m.country_code with
      | false => simp [mirror_quality_filter, hs, hq, hA]
      | true =>
        cases hB : maybe_absent_list args.protocol m.protocol with
        | false => simp [mirror_quality_filter, hs, hq, hA, hB]
        | true =>
          cases hC : optionF32Beq m.completion_pct (some (F32.val 1)) with
          | false => simp [mirror_quality_filter, hs, hq, hA, hB, hC]
          | true =>
            cases hD : delayOk args m with
            | false => simp [mirror_quality_filter, hs, hq, hA, hB, hC, hD]
            | true =>
              cases ha : m.duration_avg with
              | none => simp [mirror_quality_filter, hs, hq, hA, hB, hC, hD, ha]
              | some a => simp [mirror_quality_filter, hs, hq, hA, hB, hC, hD, ha]

theorem keepMirror_eq_some_true (args : Args) (m : Url) :
    keepMirror args m = some true ↔
      mirror_quality_filter args m = some true ∧
      ip_filter (args.require_ipv4, args.require_ipv6) (m.ipv4, m.ipv6) = true := by
  unfold keepMirror
  cases h : mirror_quality_filter args m with
  | none => simp
  | some b => cases b <;> simp [h]

/-! ### Score comparison helpers -/

theorem scoreComparable_iff (m : Url) :
    scoreComparable m = true ↔ ∃ q, m.score = some (F32.val q) := by
  unfold scoreComparable
  cases h : m.score with
  | none => simp
  | some f => cases f with
    | nan => simp
    | val q => simp

theorem scoreKey_of_val {m : Url} {x : ℚ} (h : m.score = some (F32.val x)) :
    scoreKey m = x := by
  simp [scoreKey, h]

theorem optionF32Beq_one {c : Option F32} (h : optionF32Beq c (some (F32.val 1)) = true) :
    c = some (F32.val 1) := by
  cases c with
  | none => simp [optionF32Beq] at h
  | some f => cases f with
    | nan => simp [optionF32Beq, F32.beq] at h
    | val x =>
      simp only [optionF32Beq, F32.beq, decide_eq_true_eq] at h
      rw [h]

/-! ### Relaxation helpers -/

theorem ip_filter_relax4 : ∀ a4 a6 g4 g6 : Bool,
    ip_filter (a4, a6) (g4, g6) = true → ip_filter (false, a6) (g4, g6) = true := by decide

theorem ip_filter_relax6 : ∀ a4 a6 g4 g6 : Bool,
    ip_filter (a4, a6) (g4, g6) = true → ip_filter (a4, false) (g4, g6) = true := by decide

theorem optionNatLe_mono {d : Option Nat} {t t' : Nat}
    (h : optionNatLe d (some t) = true) (htt : t ≤ t') :
    optionNatLe d (some t') = true := by
  cases d with
  | none => rfl
  | some dd =>
    simp only [optionNatLe, decide_eq_true_eq] at h ⊢
    omega

/-! ### Sort stage lemmas -/

theorem sortMirrors_perm {l out : List Url} (h : sortMirrors l = some out) :
    out.Perm l := by
  unfold sortMirrors at h
  by_cases h1 : l.length ≤ 1
  · rw [if_pos h1] at h
    injection h with h
    subst h
    exact List.Perm.refl l
  · rw [if_neg h1] at h
    by_cases h2 : l.all scoreComparable = true
    · rw [if_pos h2] at h
      injection h with h
      subst h
      exact List.perm_insertionSort rankRel l
    · rw [if_neg h2] at h
      cases h

theorem sortMirrors_chain {l out : List Url} (h : sortMirrors l = some out) :
    List.Chain' (fun a b => scoreLeB a b = true) out := by
  unfold sortMirrors at h
  by_cases h1 : l.length ≤ 1
  · rw [if_pos h1] at h
    injection h with h
    subst h
    match l, h1 with
    | [], _ => exact List.chain'_nil
    | [a], _ => exact List.chain'_singleton a
    | a :: b :: t, h1 => simp at h1
  · rw [if_neg h1] at h
    by_cases h2 : l.all scoreComparable = true
    · rw [if_pos h2] at h
      injection h with h
      subst h
      have hsorted : List.Pairwise rankRel (List.insertionSort rankRel l) :=
        List.sorted_insertionSort rankRel l
      have hmem : ∀ m ∈ List.insertionSort rankRel l, scoreComparable m = true := by
        intro m hm
        exact List.all_eq_true.mp h2 m ((List.perm_insertionSort rankRel l).mem_iff.mp hm)
      have hpw : List.Pairwise (fun a b => scoreLeB a b = true)
          (List.insertionSort rankRel l) := by
        refine List.Pairwise.imp_of_mem ?_ hsorted
        intro a b ha hb hr
        obtain ⟨qa, hqa⟩ := (scoreComparable_iff a).mp (hmem a ha)
        obtain ⟨qb, hqb⟩ := (scoreComparable_iff b).mp (hmem b hb)
        have hka := scoreKey_of_val hqa
        have hkb := scoreKey_of_val hqb
        have hab : qa ≤ qb := by
          rw [rankRel, hka, hkb] at hr
          exact hr
        simp [scoreLeB, hqa, hqb, hab]
      exact hpw.chain'
    · rw [if_neg h2] at h
      cases h

theorem orderedInsert_filter_neg {a : Url} {q : ℚ} (ha : sameScore q a = false) :
    ∀ l : List Url,
      (List.orderedInsert rankRel a l).filter (sameScore q) = l.filter (sameScore q)
  | [] => by simp [List.orderedInsert, List.filter, ha]
  | b :: t => by
    rw [List.orderedInsert]
    by_cases hr : rankRel a b
    · rw [if_pos hr]
      simp [List.filter_cons, ha]
    · rw [if_neg hr]
      cases hb : sameScore q b <;>
        simp [List.filter_cons, hb, ha, orderedInsert_filter_neg ha t]

theorem orderedInsert_filter_pos {a : Url} {q : ℚ} (ha : scoreKey a = q) :
    ∀ l : List Url,
      (List.orderedInsert rankRel a l).filter (sameScore q) = a :: l.filter (sameScore q)
  | [] => by simp [List.orderedInsert, List.filter, sameScore, ha]
  | b :: t => by
    rw [List.orderedInsert]
    by_cases hr : rankRel a b
    · rw [if_pos hr]
      simp [List.filter_cons, sameScore, ha]
    · rw [if_neg hr]
      have hb : sameScore q b = false := by
        apply decide_eq_false
        intro heq
        exact hr (by rw [rankRel, ha, heq])
      simp [List.filter_cons, hb, orderedInsert_filter_pos ha t]

theorem insertionSort_filter_sameScore (q : ℚ) :
    ∀ l : List Url,
      (List.insertionSort rankRel l).filter (sameScore q) = l.filter (sameScore q)
  | [] => rfl
  | x :: t => by
    rw [List.insertionSort]
    by_cases hx : scoreKey x = q
    · rw [orderedInsert_filter_pos hx, insertionSort_filter_sameScore q t]
      simp [List.filter_cons, sameScore, hx]
    · have hx' : sameScore q x = false := decide_eq_false hx
      rw [orderedInsert_filter_neg hx', insertionSort_filter_sameScore q t]
      simp [List.filter_cons, hx']

theorem sortMirrors_filter_sameScore {l out : List Url} (h : sortMirrors l = some out)
    (q : ℚ) : out.filter (sameScore q) = l.filter (sameScore q) := by
  unfold sortMirrors at h
  by_cases h1 : l.length ≤ 1
  · rw [if_pos h1] at h
    injection h with h
    subst h
    rfl
  · rw [if_neg h1] at h
    by_cases h2 : l.all scoreComparable = true
    · rw [if_pos h2] at h
      injection h with h
      subst h
      exact insertionSort_filter_sameScore q l
    · rw [if_neg h2] at h
      cases h

/-! ### Independence from fields the pipeline never reads -/

theorem keepMirror_maximum_mirrors (args : Args) (n : Option Nat) :
    keepMirror { args with maximum_mirrors := n } = keepMirror args := rfl

theorem filterMirrors_maximum_mirrors (args : Args) (n : Option Nat) (l : List Url) :
    filterMirrors { args with maximum_mirrors := n } l = filterMirrors args l := by
  unfold filterMirrors
  rw [keepMirror_maximum_mirrors]

theorem process_mirrors_maximum_mirrors (res : ApiResponse) (args : Args) (n : Option Nat) :
    process_mirrors res { args with maximum_mirrors := n } = process_mirrors res args := by
  unfold process_mirrors
  rw [filterMirrors_maximum_mirrors]

/-! ### Relaxation monotonicity -/

theorem keepMirror_relax {args args' : Args} (h : RelaxStep args args') {m : Url}
    (hk : keepMirror args m = some true) : keepMirror args' m = some true := by
  rw [keepMirror_eq_some_true] at hk
  obtain ⟨hq, hip⟩ := hk
  rw [mirror_quality_filter_eq_some_true] at hq
  obtain ⟨hA, hB, hC, hD, hsc, a, s, hav, hsd, hle⟩ := hq
  rw [keepMirror_eq_some_true]
  unfold RelaxStep at h
  rcases h with h | h | h | h | ⟨d', hd', h⟩
  · subst h
    exact ⟨(mirror_quality_filter_eq_some_true _ _).mpr
      ⟨hA, by simp [maybe_absent_list], hC, hD, hsc, a, s, hav, hsd, hle⟩, hip⟩
  · subst h
    exact ⟨(mirror_quality_filter_eq_some_true _ _).mpr
      ⟨by simp [maybe_absent_compare], hB, hC, hD, hsc, a, s, hav, hsd, hle⟩, hip⟩
  · subst h
    exact ⟨(mirror_quality_filter_eq_some_true _ _).mpr
      ⟨hA, hB, hC, hD, hsc, a, s, hav, hsd, hle⟩,
      ip_filter_relax4 args.require_ipv4 args.require_ipv6 m.ipv4 m.ipv6 hip⟩
  · subst h
    exact ⟨(mirror_quality_filter_eq_some_true _ _).mpr
      ⟨hA, hB, hC, hD, hsc, a, s, hav, hsd, hle⟩,
      ip_filter_relax6 args.require_ipv4 args.require_ipv6 m.ipv4 m.ipv6 hip⟩
  · subst h
    exact ⟨(mirror_quality_filter_eq_some_true _ _).mpr
      ⟨hA, hB, hC, optionNatLe_mono hD hd', hsc, a, s, hav, hsd, hle⟩, hip⟩

/-! ### Claim theorems -/

/-- C1 counterexample: a candidate whose `delay` is absent is NOT excluded by
the filter — Rust Option ordering makes `None <= Some(3600)` true, so the
candidate survives the whole pipeline. -/
theorem c1_counterexample :
    urlDelayAbsent.delay = none ∧
    process_mirrors ⟨[urlDelayAbsent]⟩ defaultArgs = some [urlDelayAbsent] := by
  constructor
  · rfl
  · simp [process_mirrors, filterMirrors, filterPanic, keepMirror, mirror_quality_filter,
      maybe_absent_compare, maybe_absent_list, optionF32Beq, optionNatLe, delayOk, ip_filter,
      F32.add, F32.le, F32.beq, sortMirrors, defaultArgs, urlDelayAbsent, goodUrl]

/-- C1 (amended): an absent `syncDelaySeconds` always SATISFIES the delay
predicate — `None` compares below every `Some` threshold under the derived
Rust Option ordering — so an absent delay never causes exclusion by the
delay check, for every threshold. -/
theorem c1_delay_absent_passes (args : Args) (m : Url) (h : m.delay = none) :
    delayOk args m = true := by
  simp [delayOk, optionNatLe, h]

/-- C1 witness: the amended claim at a concrete candidate. -/
theorem c1_witness :
    urlDelayAbsent.delay = none ∧ delayOk defaultArgs urlDelayAbsent = true :=
  ⟨rfl, c1_delay_absent_passes defaultArgs urlDelayAbsent rfl⟩

/-- C2: a candidate with `durationAverage` absent but `durationStdDev`
present, passing the other predicates, makes `process_mirrors` fault (the
force-unwrap of `duration_avg`), modelled as `none`; the claim that such a
candidate is excluded with a normal return does not hold on the code. -/
theorem c2_missing_avg_faults :
    urlAvgAbsent.duration_avg = none ∧
    (∃ s, urlAvgAbsent.duration_stddev = some s) ∧
    keepMirror defaultArgs urlAvgAbsent = none ∧
    process_mirrors ⟨[urlAvgAbsent]⟩ defaultArgs = none := by
  refine ⟨rfl, ⟨F32.val 1, rfl⟩, ?_, ?_⟩
  · simp [keepMirror, mirror_quality_filter, maybe_absent_compare, maybe_absent_list,
      optionF32Beq, optionNatLe, delayOk, F32.beq, defaultArgs, urlAvgAbsent, goodUrl]
  · simp [process_mirrors, filterMirrors, filterPanic, keepMirror, mirror_quality_filter,
      maybe_absent_compare, maybe_absent_list, optionF32Beq, optionNatLe, delayOk,
      F32.beq, defaultArgs, urlAvgAbsent, goodUrl]

/-- C3: a candidate whose score is present but NaN passes the filter — only
absence is checked — so it reaches the ranking stage, and with a second
survivor the sort comparator faults (`partial_cmp` returns `None` and is
unwrapped); the claim that NaN scores are excluded before ranking does not
hold on the code. -/
theorem c3_nan_reaches_ranker :
    urlNanScore.score = some F32.nan ∧
    keepMirror defaultArgs urlNanScore = some true ∧
    process_mirrors ⟨[urlNanScore, goodUrl]⟩ defaultArgs = none := by
  refine ⟨rfl, ?_, ?_⟩
  · simp [keepMirror, mirror_quality_filter, maybe_absent_compare, maybe_absent_list,
      optionF32Beq, optionNatLe, delayOk, ip_filter, F32.add, F32.le, F32.beq,
      defaultArgs, urlNanScore, goodUrl]
  · simp [process_mirrors, filterMirrors, filterPanic, keepMirror, mirror_quality_filter,
      maybe_absent_compare, maybe_absent_list, optionF32Beq, optionNatLe, delayOk, ip_filter,
      F32.add, F32.le, F32.beq, sortMirrors, scoreComparable, defaultArgs, urlNanScore, goodUrl]

/-- C4: whenever `process_mirrors` returns a sequence, that sequence is
ascending by quality score: every adjacent pair of elements has both scores
present, comparable and in non-decreasing order. -/
theorem c4_result_ascending (res : ApiResponse) (args : Args) (out : List Url)
    (h : process_mirrors res args = some out) :
    List.Chain' (fun a b => scoreLeB a b = true) out := by
  unfold process_mirrors at h
  cases hf : filterMirrors args res.urls with
  | none => rw [hf] at h; cases h
  | some S =>
    rw [hf] at h
    exact sortMirrors_chain h

/-- C4 witness: the ascending-order property at a concrete two-survivor
input whose scores arrive out of order. -/
theorem c4_witness :
    List.Chain' (fun a b => scoreLeB a b = true) [fastUrl, goodUrl] :=
  c4_result_ascending ⟨[goodUrl, fastUrl]⟩ defaultArgs [fastUrl, goodUrl] (by
    simp [process_mirrors, filterMirrors, filterPanic, keepMirror, mirror_quality_filter,
      maybe_absent_compare, maybe_absent_list, optionF32Beq, optionNatLe, delayOk, ip_filter,
      F32.add, F32.le, F32.beq, sortMirrors, scoreComparable, rankRel, scoreKey,
      List.insertionSort, List.orderedInsert, defaultArgs, fastUrl, goodUrl])

/-- C5: every endpoint in the post-filter survivor set has
`completion_pct` exactly 1.0 and both duration fields present with
`duration_avg + duration_stddev <= 1.0`. -/
theorem c5_survivor_fields (args : Args) (l S : List Url)
    (h : filterMirrors args l = some S) :
    ∀ m ∈ S, m.completion_pct = some (F32.val 1) ∧
      ∃ a s, m.duration_avg = some a ∧ m.duration_stddev = some s ∧
        F32.le (F32.add a s) (F32.val 1) = true := by
  intro m hm
  have hk := filterPanic_mem_keep h m hm
  rw [keepMirror_eq_some_true] at hk
  obtain ⟨hq, _⟩ := hk
  rw [mirror_quality_filter_eq_some_true] at hq
  obtain ⟨_, _, hC, _, _, a, s, hav, hsd, hle⟩ := hq
  exact ⟨optionF32Beq_one hC, a, s, hav, hsd, hle⟩

/-- C5 witness: the survivor-field property at a concrete surviving
candidate. -/
theorem c5_witness :
    goodUrl.completion_pct = some (F32.val 1) ∧
    ∃ a s, goodUrl.duration_avg = some a ∧ goodUrl.duration_stddev = some s ∧
      F32.le (F32.add a s) (F32.val 1) = true :=
  c5_survivor_fields defaultArgs [goodUrl] [goodUrl] (by
    simp [filterMirrors, filterPanic, keepMirror, mirror_quality_filter,
      maybe_absent_compare, maybe_absent_list, optionF32Beq, optionNatLe, delayOk, ip_filter,
      F32.add, F32.le, F32.beq, defaultArgs, goodUrl]) goodUrl (by simp)

/-- C6: the filter stage emits a stable subsequence of the input, and the
sort is stable, so for every score value the equal-score survivors appear in
the final result exactly in their input order. -/
theorem c6_stability (res : ApiResponse) (args : Args) (out : List Url)
    (h : process_mirrors res args = some out) :
    ∃ S, filterMirrors args res.urls = some S ∧ S.Sublist res.urls ∧
      ∀ q : ℚ, out.filter (sameScore q) = S.filter (sameScore q) := by
  unfold process_mirrors at h
  cases hf : filterMirrors args res.urls with
  | none => rw [hf] at h; cases h
  | some S =>
    rw [hf] at h
    exact ⟨S, rfl, filterPanic_sublist hf, fun q => sortMirrors_filter_sameScore h q⟩

/-- C6 witness: stability at a concrete input with two equal-score
survivors. -/
theorem c6_witness :
    ∃ S, filterMirrors defaultArgs (ApiResponse.urls ⟨[goodUrl, goodUrlB, fastUrl]⟩) = some S ∧
      S.Sublist (ApiResponse.urls ⟨[goodUrl, goodUrlB, fastUrl]⟩) ∧
      ∀ q : ℚ, [fastUrl, goodUrl, goodUrlB].filter (sameScore q) = S.filter (sameScore q) :=
  c6_stability ⟨[goodUrl, goodUrlB, fastUrl]⟩ defaultArgs [fastUrl, goodUrl, goodUrlB] (by
    simp [process_mirrors, filterMirrors, filterPanic, keepMirror, mirror_quality_filter,
      maybe_absent_compare, maybe_absent_list, optionF32Beq, optionNatLe, delayOk, ip_filter,
      F32.add, F32.le, F32.beq, sortMirrors, scoreComparable, rankRel, scoreKey,
      List.insertionSort, List.orderedInsert, defaultArgs, fastUrl, goodUrl, goodUrlB])

/-- C7 counterexample: relaxing a constraint need not yield a survivor set
at all — dropping the country filter exposes the `duration_avg` force-unwrap
on a candidate the original criteria rejected early, so the original run
returns an empty survivor set while the relaxed run faults. -/
theorem c7_counterexample :
    RelaxStep argsCountryUS defaultArgs ∧
    filterMirrors argsCountryUS [urlCAAvgAbsent] = some [] ∧
    filterMirrors defaultArgs [urlCAAvgAbsent] = none := by
  refine ⟨Or.inr (Or.inl rfl), ?_, ?_⟩
  · simp [filterMirrors, filterPanic, keepMirror, mirror_quality_filter,
      maybe_absent_compare, maybe_absent_list, optionF32Beq, optionNatLe, delayOk, ip_filter,
      F32.add, F32.le, F32.beq, defaultArgs, argsCountryUS, urlCAAvgAbsent, goodUrl]
  · simp [filterMirrors, filterPanic, keepMirror, mirror_quality_filter,
      maybe_absent_compare, maybe_absent_list, optionF32Beq, optionNatLe, delayOk, ip_filter,
      F32.add, F32.le, F32.beq, defaultArgs, urlCAAvgAbsent, goodUrl]

/-- C7 (amended): whenever both the original and the relaxed filter run
complete (neither faults on the `duration_avg` unwrap), relaxing any single
constraint is monotone: every candidate surviving the original criteria also
survives the relaxed criteria. -/
theorem c7_relax_superset (args args' : Args) (l S Sr : List Url)
    (hrel : RelaxStep args args')
    (h : filterMirrors args l = some S) (hr : filterMirrors args' l = some Sr) :
    ∀ m ∈ S, m ∈ Sr := by
  intro m hm
  have hk := filterPanic_mem_keep h m hm
  have hk' := keepMirror_relax hrel hk
  have hml : m ∈ l := (filterPanic_sublist h).mem hm
  exact filterPanic_mem_of_keep hr hml hk'

/-- C7 witness: the amended monotonicity at a concrete relaxation (dropping
the country filter) under which both runs complete. -/
theorem c7_witness : goodUrl ∈ ([goodUrl] : List Url) :=
  c7_relax_superset argsCountryUS defaultArgs [goodUrl] [goodUrl] [goodUrl]
    (Or.inr (Or.inl rfl))
    (by
      simp [filterMirrors, filterPanic, keepMirror, mirror_quality_filter,
        maybe_absent_compare, maybe_absent_list, optionF32Beq, optionNatLe, delayOk, ip_filter,
        F32.add, F32.le, F32.beq, defaultArgs, argsCountryUS, goodUrl])
    (by
      simp [filterMirrors, filterPanic, keepMirror, mirror_quality_filter,
        maybe_absent_compare, maybe_absent_list, optionF32Beq, optionNatLe, delayOk, ip_filter,
        F32.add, F32.le, F32.beq, defaultArgs, goodUrl])
    goodUrl (by simp)

/-- C8: the IP-version gate is exactly the conjunction of the two
requirement implications: a required stack must be supported, both flags
conjoin, and with both flags clear the gate passes everything. -/
theorem c8_ip_gate : ∀ a4 a6 g4 g6 : Bool,
    ip_filter (a4, a6) (g4, g6) = ((!a4 || g4) && (!a6 || g6)) := by decide

/-- C9: the core never truncates: the returned sequence is a permutation of
the post-filter survivor set (each survivor exactly once, unmodified), and
the whole result is unchanged under any `maximum_mirrors` setting. -/
theorem c9_no_truncation (res : ApiResponse) (args : Args) (S out : List Url)
    (hf : filterMirrors args res.urls = some S)
    (hp : process_mirrors res args = some out) :
    out.Perm S ∧
    ∀ n : Option Nat, process_mirrors res { args with maximum_mirrors := n } = some out := by
  constructor
  · unfold process_mirrors at hp
    rw [hf] at hp
    exact sortMirrors_perm hp
  · intro n
    exact (process_mirrors_maximum_mirrors res args n).trans hp

/-- C9 witness: at a concrete input, the result is a permutation of the
survivors and is unchanged by a `maximum_mirrors` cap of 0. -/
theorem c9_witness :
    ([fastUrl, goodUrl] : List Url).Perm [goodUrl, fastUrl] ∧
    process_mirrors ⟨[goodUrl, fastUrl]⟩ { defaultArgs with maximum_mirrors := some 0 } =
      some [fastUrl, goodUrl] := by
  have h := c9_no_truncation ⟨[goodUrl, fastUrl]⟩ defaultArgs [goodUrl, fastUrl]
    [fastUrl, goodUrl]
    (by
      simp [filterMirrors, filterPanic, keepMirror, mirror_quality_filter,
        maybe_absent_compare, maybe_absent_list, optionF32Beq, optionNatLe, delayOk, ip_filter,
        F32.add, F32.le, F32.beq, defaultArgs, fastUrl, goodUrl])
    (by
      simp [process_mirrors, filterMirrors, filterPanic, keepMirror, mirror_quality_filter,
        maybe_absent_compare, maybe_absent_list, optionF32Beq, optionNatLe, delayOk, ip_filter,
        F32.add, F32.le, F32.beq, sortMirrors, scoreComparable, rankRel, scoreKey,
        List.insertionSort, List.orderedInsert, defaultArgs, fastUrl, goodUrl])
  exact ⟨h.1, h.2 (some 0)⟩

/-- C10: the filter stage is idempotent: running the two filter closures a
second time over their own output gives the same outcome (panics propagate
through the composition unchanged). -/
theorem c10_filter_idempotent (args : Args) (l : List Url) :
    (filterMirrors args l).bind (filterMirrors args) = filterMirrors args l := by
  cases h : filterMirrors args l with
  | none => rfl
  | some S =>
    show filterMirrors args S = some S
    exact filterPanic_self fun m hm => filterPanic_mem_keep h m hm

/-- C8 witness: the gate identity at one concrete flag combination. -/
theorem c8_witness :
    ip_filter (true, false) (true, false) = ((!true || true) && (!false || false)) :=
  c8_ip_gate true false true false

/-- C10 witness: idempotence at a concrete collection and criteria. -/
theorem c10_witness :
    (filterMirrors defaultArgs [goodUrl]).bind (filterMirrors defaultArgs) =
      filterMirrors defaultArgs [goodUrl] :=
  c10_filter_idempotent defaultArgs [goodUrl]
